import Mathlib

/-!
Shallow embedding of the trace-to-metric reduction pipeline of the
figure-plotting scripts (parser, grouper, inter-arrival analyzer,
binner, hit-rate accumulator).  Python floats are modelled as exact
rationals; Python ints as `Int`; fallible conversions as `Option`.
-/

namespace TracePipe

/-- Whitespace test used by the Python `str.split()` / `str.strip()` model. -/
def isWs (c : Char) : Bool := c = ' ' || c = '\t' || c = '\n' || c = '\r'

/-- Model of Python `str.strip()`: drop whitespace from both ends. -/
def stripChars (cs : List Char) : List Char :=
  ((cs.dropWhile isWs).reverse.dropWhile isWs).reverse

/-- Helper for `wsSplit`: accumulate the current token (reversed) while
scanning; whitespace runs end tokens and are dropped. -/
def wsSplitGo (cur : List Char) : List Char → List (List Char)
  | [] => if cur = [] then [] else [cur.reverse]
  | c :: cs =>
    if isWs c then
      if cur = [] then wsSplitGo [] cs else cur.reverse :: wsSplitGo [] cs
    else wsSplitGo (c :: cur) cs

/-- Model of Python `str.split()` (no argument): split on whitespace runs,
producing no empty tokens. -/
def wsSplit (cs : List Char) : List (List Char) := wsSplitGo [] cs

/-- Numeric value of a digit run (most significant first); 0 on empty. -/
def digitsNat (cs : List Char) : Nat :=
  cs.foldl (fun a c => a * 10 + (c.toNat - 48)) 0

/-- Model of Python `int(str)` on the token strings appearing in traces:
an optional minus sign followed by a nonempty digit run. -/
def parseIntCs (cs : List Char) : Option Int :=
  match cs with
  | '-' :: r => if r ≠ [] ∧ r.all Char.isDigit then some (-(digitsNat r : Int)) else none
  | _ => if cs ≠ [] ∧ cs.all Char.isDigit then some ((digitsNat cs : Int)) else none

/-- Digit structure of an unsigned decimal literal: `digits`,
`digits.digits`, `digits.` or `.digits` (at least one digit overall),
returned as (integer part, fractional digits value, fractional digit
count) so that the tokenizing stays in `Nat`. -/
def parseUDec (cs : List Char) : Option (ℕ × ℕ × ℕ) :=
  let ip := cs.takeWhile Char.isDigit
  let rest := cs.dropWhile Char.isDigit
  match rest with
  | [] => if ip = [] then none else some (digitsNat ip, 0, 0)
  | '.' :: fp =>
    if fp.all Char.isDigit ∧ (ip ≠ [] ∨ fp ≠ []) then
      some (digitsNat ip, digitsNat fp, fp.length)
    else none
  | _ => none

/-- Rational value of a decimal-digit triple produced by `parseUDec`. -/
def decVal (t : ℕ × ℕ × ℕ) : ℚ := (t.1 : ℚ) + (t.2.1 : ℚ) / (10 : ℚ) ^ t.2.2

/-- Model of Python `float(str)` on the plain decimal literals appearing in
trace timestamps (exponents/inf/nan are outside the trace format). -/
def parseFloatCs (cs : List Char) : Option ℚ :=
  match cs with
  | '-' :: r => (parseUDec r).map (fun t => -(decVal t))
  | _ => (parseUDec cs).map decVal

/-- Minimum of a rational list (Python `min`; meaningful on nonempty input). -/
def listMin : List ℚ → ℚ
  | [] => 0
  | x :: xs => xs.foldl min x

/-- Maximum of a rational list (Python `max`; meaningful on nonempty input). -/
def listMax : List ℚ → ℚ
  | [] => 0
  | x :: xs => xs.foldl max x

/-- Arithmetic mean, the model of `np.mean` (0 on empty input). -/
def listMean (l : List ℚ) : ℚ := l.sum / (l.length : ℚ)

/-- Stable insertion of an element into a list sorted by `key`: the new
element goes before later elements with an equal key. -/
def insertByKey {α : Type} (key : α → ℚ) (x : α) : List α → List α
  | [] => [x]
  | y :: ys => if key x ≤ key y then x :: y :: ys else y :: insertByKey key x ys

/-- Stable ascending sort by `key`, the model of Python
`list.sort(key=...)` (Timsort is stable). -/
def sortByKey {α : Type} (key : α → ℚ) : List α → List α
  | [] => []
  | x :: xs => insertByKey key x (sortByKey key xs)

/-- Model of `np.percentile(l, p)` for an integral percent p (the scripts
use only p = 95 and p = 50) with the default linear interpolation: on the
sorted list of length n the value at fractional rank p/100*(n-1),
interpolating between the neighbouring elements.  The floor of the rank is
taken in `Nat` (`p * (n-1) / 100`), which agrees with the real floor. -/
def percentile (p : ℕ) (l : List ℚ) : ℚ :=
  let s := sortByKey id l
  match s with
  | [] => 0
  | _ =>
    let n := s.length
    let lo := p * (n - 1) / 100
    let frac := (p : ℚ) / 100 * ((n : ℚ) - 1) - (lo : ℚ)
    let a := s.getD lo 0
    let b := s.getD (lo + 1) a
    a + frac * (b - a)

/-- Model of `np.median`: the 50th linear-interpolation percentile
(the average of the two middle elements for even length). -/
def median (l : List ℚ)  : ℚ := percentile 50 l

/-- Successive inter-arrival deltas of a timestamp list, converted from
seconds to milliseconds (the `(t[i] - t[i-1]) * 1000` loop). -/
def deltasMs (ts : List ℚ) : List ℚ :=
  List.zipWith (fun a b => (b - a) * 1000) ts ts.tail

/-- Model of `np.linspace a b n`: n evenly spaced points from a to b
inclusive. -/
def linspace (a b : ℚ) (n : ℕ) : List ℚ :=
  (List.range n).map (fun i : ℕ => a + (b - a) * (i : ℚ) / ((n : ℚ) - 1))

/-- Trace event of `figure7_peak_dt_vs_alpha_tti.py` (`parse_trace_file`):
eight required fields plus two optional trailing fields. -/
structure Fig7Entry where
  block_id : Int
  offset : Int
  size : Int
  time : ℚ
  op : Int
  pipeline : Int
  namespaceId : Int
  user : Int
  rs_shard_id : Option Int
  op_count : Option Int
deriving DecidableEq, Repr

/-- Outcome of one line of the per-line loop shared by all the parsers:
a blank/comment line (skipped and counted), a parsed event, a short line
with fewer than 8 fields (dropped by the `len(values) >= 8` guard *without*
reaching any counter), or a line where a field conversion raised
(caught by the `except` arm, which counts it as skipped). -/
inductive LineOutcome (α : Type) where
  | blank
  | event (e : α)
  | short
  | bad
deriving DecidableEq

/-- One line of `figure7_peak_dt_vs_alpha_tti.py`'s `parse_trace_file`
(identical in `src/figure7_...py` and `src/Figures/figure7_...py`): strip,
skip comments/blank lines, split on whitespace, require 8 fields, convert
the required fields and then the optional 9th and 10th fields; any failed
conversion raises, discarding the whole line. -/
def fig7ParseLine (line : String) : LineOutcome Fig7Entry :=
  let l := stripChars line.data
  if l.headD ' ' = '#' ∨ l = [] then .blank
  else
    let values := wsSplit l
    if 8 ≤ values.length then
      match parseIntCs (values.getD 0 []), parseIntCs (values.getD 1 []),
            parseIntCs (values.getD 2 []), parseFloatCs (values.getD 3 []),
            parseIntCs (values.getD 4 []), parseIntCs (values.getD 5 []),
            parseIntCs (values.getD 6 []), parseIntCs (values.getD 7 []) with
      | some b, some o, some s, some t, some op, some pl, some ns, some u =>
        if 8 < values.length then
          match parseIntCs (values.getD 8 []) with
          | none => .bad
          | some sh =>
            if 9 < values.length then
              match parseIntCs (values.getD 9 []) with
              | none => .bad
              | some oc => .event ⟨b, o, s, t, op, pl, ns, u, some sh, some oc⟩
            else .event ⟨b, o, s, t, op, pl, ns, u, some sh, none⟩
        else .event ⟨b, o, s, t, op, pl, ns, u, none, none⟩
      | _, _, _, _, _, _, _, _ => .bad
    else .short

/-- Effect of one line on the `(data, skipped_lines)` state of
`parse_trace_file` in figure7: blank/comment and conversion-failure lines
bump the skip counter, parsed events are appended, and short lines fall
through the `if len(values) >= 8` guard leaving both components unchanged. -/
def parseStep {α : Type} (parseLine : String → LineOutcome α)
    (acc : List α × ℕ) (line : String) : List α × ℕ :=
  match parseLine line with
  | .blank => (acc.1, acc.2 + 1)
  | .event e => (acc.1 ++ [e], acc.2)
  | .short => acc
  | .bad => (acc.1, acc.2 + 1)

/-- `parse_trace_file` of figure7 over an in-memory list of lines,
returning the parsed entries and the skipped-line count. -/
def fig7ParseTrace (lines : List String) : List Fig7Entry × ℕ :=
  lines.foldl (parseStep fig7ParseLine) ([], 0)

/-- Trace event of `scripts/figure1_peak_dt.py` (`parse_trace_file`): the
subset of fields that script extracts (`values[1]` is never converted). -/
structure Fig1Entry where
  block_id : Int
  size : Int
  time : ℚ
  op : Int
  pipeline : Int
  namespaceId : Int
  user : Int
deriving DecidableEq, Repr

/-- One line of figure1's `parse_trace_file`: same skeleton as figure7 but
converting only fields 0, 2, 3, 4, 5, 6, 7 and never reading optional
trailing fields. -/
def fig1ParseLine (line : String) : LineOutcome Fig1Entry :=
  let l := stripChars line.data
  if l.headD ' ' = '#' ∨ l = [] then .blank
  else
    let values := wsSplit l
    if 8 ≤ values.length then
      match parseIntCs (values.getD 0 []), parseIntCs (values.getD 2 []),
            parseFloatCs (values.getD 3 []), parseIntCs (values.getD 4 []),
            parseIntCs (values.getD 5 []), parseIntCs (values.getD 6 []),
            parseIntCs (values.getD 7 []) with
      | some b, some s, some t, some op, some pl, some ns, some u =>
        .event ⟨b, s, t, op, pl, ns, u⟩
      | _, _, _, _, _, _, _ => .bad
    else .short

/-- figure1's `parse_trace_file` with its `max_entries` early-exit: the
loop breaks as soon as `entry_count >= max_entries` is seen at the top of
an iteration (`entry_count` always equals `len(data)`). -/
def fig1ParseGo (maxEntries : ℕ) : List Fig1Entry × ℕ → List String → List Fig1Entry × ℕ
  | acc, [] => acc
  | acc, line :: rest =>
    if maxEntries ≤ acc.1.length then acc
    else fig1ParseGo maxEntries (parseStep fig1ParseLine acc line) rest

/-- `parse_trace_file` of figure1 over an in-memory list of lines. -/
def fig1ParseTrace (maxEntries : ℕ) (lines : List String) : List Fig1Entry × ℕ :=
  fig1ParseGo maxEntries ([], 0) lines

/-- Trace event of `scripts/figure5_peak_dt_vs_tau_dt.py`: that script
keeps only `block_id`, `time` and `op`. -/
structure Fig5Entry where
  block_id : Int
  time : ℚ
  op : Int
deriving DecidableEq, Repr

/-- Trace event of `scripts/figure3_cache_hit_rate.py`: `values[7]` is read
as the `hit` flag. -/
structure Fig3Entry where
  block_id : Int
  time : ℚ
  op : Int
  pipeline : Int
  namespaceId : Int
  hit : Int
deriving DecidableEq, Repr

/-- Model of grouping with `defaultdict(list)` / a plain dict: an
association list in key-insertion order; a new event is appended at the end
of its key's list, or a fresh singleton group is appended at the end. -/
def insertGroup {α : Type} (gs : List (Int × List α)) (k : Int) (e : α) :
    List (Int × List α) :=
  match gs with
  | [] => [(k, [e])]
  | (k', l) :: rest =>
    if k' = k then (k', l ++ [e]) :: rest else (k', l) :: insertGroup rest k e

/-- The `for entry in trace_data: groups[key(entry)].append(entry)` loop
shared by all scripts (key = `block_id` or `pipeline`). -/
def groupByKey {α : Type} (key : α → Int) (trace : List α) : List (Int × List α) :=
  trace.foldl (fun gs e => insertGroup gs (key e) e) []

/-- Unfiltered inter-arrival deltas (ms) of figure7's `calculate_metrics`
for one block: sort by time, then all successive differences — there is no
per-delta filter in that script. -/
def fig7Deltas (requests : List Fig7Entry) : List ℚ :=
  deltasMs ((sortByKey Fig7Entry.time requests).map Fig7Entry.time)

/-- Per-block step of figure7's `calculate_metrics`: blocks with fewer
than two requests or no deltas are skipped; α_tti = 1000 / mean delta
(0 if the mean is not positive), peak = 95th percentile; the pair is kept
only when 0 < α_tti < 20 and 0 < peak < 10000. -/
def fig7Block (requests : List Fig7Entry) : Option (ℚ × ℚ) :=
  if requests.length < 2 then none
  else
    let ds := fig7Deltas requests
    if ds = [] then none
    else
      let avg := listMean ds
      let alpha := if 0 < avg then 1000 / avg else 0
      let peak := percentile 95 ds
      if 0 < alpha ∧ alpha < 20 ∧ 0 < peak ∧ peak < 10000 then some (alpha, peak)
      else none

/-- The per-block metric lists of figure7's `calculate_metrics` before
binning: α_tti and peak_dt values of the retained blocks, in group order. -/
def fig7Metrics (trace : List Fig7Entry) : List ℚ × List ℚ :=
  let pairs := (groupByKey Fig7Entry.block_id trace).filterMap (fun g => fig7Block g.2)
  (pairs.map Prod.fst, pairs.map Prod.snd)

/-- Membership test of the half-open bin `lo ≤ x < hi` used by both
binners (`np.where((a >= lo) & (a < hi))`). -/
def inBin (lo hi x : ℚ) : Bool := decide (lo ≤ x) && decide (x < hi)

/-- The member pairs of bin i: metric_x between edge i (inclusive) and
edge i+1 (exclusive). -/
def binMembers (pairs : List (ℚ × ℚ)) (edges : List ℚ) (i : ℕ) : List (ℚ × ℚ) :=
  pairs.filter (fun p => inBin (edges.getD i 0) (edges.getD (i + 1) 0) p.1)

/-- Body of figure7's binning loop for one bin index: compute the bin
edges and center, select members, and append (center, median peak, count)
to the three parallel output lists when the bin is nonempty. -/
def fig7BinStep (pairs : List (ℚ × ℚ)) (edges : List ℚ)
    (acc : List ℚ × List ℚ × List ℕ) (i : ℕ) : List ℚ × List ℚ × List ℕ :=
  let mem := binMembers pairs edges i
  if 0 < mem.length then
    (acc.1 ++ [(edges.getD i 0 + edges.getD (i + 1) 0) / 2],
     acc.2.1 ++ [median (mem.map Prod.snd)], acc.2.2 ++ [mem.length])
  else acc

/-- The binning branch of figure7's `calculate_metrics`:
`np.linspace(min, max, num_bins)` bin edges (hence `num_bins - 1`
half-open bins), median peak per nonempty bin, empty bins omitted. -/
def fig7Binned (xs ys : List ℚ) (numBins : ℕ) : List ℚ × List ℚ × List ℕ :=
  let edges := linspace (listMin xs) (listMax xs) numBins
  let pairs := xs.zip ys
  (List.range (edges.length - 1)).foldl (fig7BinStep pairs edges) ([], [], [])

/-- Tail of figure7's `calculate_metrics`: bin only when there are more
metric pairs than requested bins, otherwise pass the raw pairs through
with a count of one each. -/
def fig7Aggregate (xs ys : List ℚ) (numBins : ℕ) : List ℚ × List ℚ × List ℕ :=
  if numBins < xs.length then fig7Binned xs ys numBins
  else (xs, ys, List.replicate xs.length 1)

/-- Raw (pre-filter) inter-arrival deltas of figure5's
`process_single_block`: the loop `for i in range(1, min(20, len(requests)))`
only ever looks at the first 20 sorted requests. -/
def fig5DeltasRaw (requests : List Fig5Entry) : List ℚ :=
  deltasMs (((sortByKey Fig5Entry.time requests).take 20).map Fig5Entry.time)

/-- Filtered deltas of figure5's `process_single_block`: only deltas
strictly inside (0, 20000) ms are appended. -/
def fig5Deltas (requests : List Fig5Entry) : List ℚ :=
  (fig5DeltasRaw requests).filter (fun d => decide (0 < d) && decide (d < 20000))

/-- figure5's `process_single_block`: `None` for groups with fewer than two
requests or an empty filtered delta list, otherwise (τ = mean delta,
peak = 95th percentile). -/
def fig5Block (requests : List Fig5Entry) : Option (ℚ × ℚ) :=
  if requests.length < 2 then none
  else
    let ds := fig5Deltas requests
    if ds = [] then none
    else some (listMean ds, percentile 95 ds)

/-- Body of figure5's `calculate_binned_metrics` loop for one bin index:
nonempty bins append the mean τ and mean peak of their members, empty bins
append 0 to both lists. -/
def fig5BinStep (pairs : List (ℚ × ℚ)) (edges : List ℚ)
    (acc : List ℚ × List ℚ) (i : ℕ) : List ℚ × List ℚ :=
  let mem := binMembers pairs edges i
  if 0 < mem.length then
    (acc.1 ++ [listMean (mem.map Prod.fst)], acc.2 ++ [listMean (mem.map Prod.snd)])
  else (acc.1 ++ [0], acc.2 ++ [0])

/-- figure5's `calculate_binned_metrics`: `np.linspace(min, max,
num_bins+1)` edges (hence `num_bins` half-open bins), centers of all bins,
mean peak per bin with empty bins zero-filled; it returns
`(bin_centers, binned_peak)` (the internal `binned_tau` list is unused). -/
def fig5Binned (tauVals peakVals : List ℚ) (numBins : ℕ) : List ℚ × List ℚ :=
  let edges := linspace (listMin tauVals) (listMax tauVals) (numBins + 1)
  let centers := List.zipWith (fun a b => (a + b) / 2) edges edges.tail
  let pairs := tauVals.zip peakVals
  let binned := (List.range numBins).foldl (fig5BinStep pairs edges) ([], [])
  (centers, binned.2)

/-- Filtered inter-arrival deltas of figure1's per-pipeline loop in
`calculate_peak_dt_metrics` (same (0, 20000) ms filter, no 20-request
cap). -/
def fig1Deltas (requests : List Fig1Entry) : List ℚ :=
  (deltasMs ((sortByKey Fig1Entry.time requests).map Fig1Entry.time)).filter
    (fun d => decide (0 < d) && decide (d < 20000))

/-- Per-pipeline step of figure1's `calculate_peak_dt_metrics`: groups with
fewer than two requests or no valid deltas contribute nothing; otherwise
the pipeline contributes its 95th-percentile delta to the scheme bucket
`pipeline % 3`. -/
def fig1Pipeline (pipeline : Int) (requests : List Fig1Entry) : Option (Int × ℚ) :=
  if requests.length < 2 then none
  else
    let ds := fig1Deltas requests
    if ds = [] then none
    else some (pipeline % 3, percentile 95 ds)

/-- The `schemes` dict of figure3's `calculate_hit_rates`: hit and total
counters for the three scheme buckets E0, E1, E2. -/
structure SchemeAcc where
  h0 : ℕ
  t0 : ℕ
  h1 : ℕ
  t1 : ℕ
  h2 : ℕ
  t2 : ℕ
deriving DecidableEq, Repr

/-- The all-zero initial `schemes` dict. -/
def schemeZero : SchemeAcc := ⟨0, 0, 0, 0, 0, 0⟩

/-- One request of figure3's accumulation loop: bump the total of bucket
`sid` (already `pipeline % 3`, hence 0, 1 or 2) and its hit counter when
the request's `hit` field equals exactly 1. -/
def bumpScheme (s : SchemeAcc) (sid : Int) (hit : Int) : SchemeAcc :=
  let inc : ℕ := if hit = 1 then 1 else 0
  if sid = 0 then { s with h0 := s.h0 + inc, t0 := s.t0 + 1 }
  else if sid = 1 then { s with h1 := s.h1 + inc, t1 := s.t1 + 1 }
  else { s with h2 := s.h2 + inc, t2 := s.t2 + 1 }

/-- figure3's accumulation: for every pipeline group, every request bumps
the bucket `pipeline % 3`. -/
def accumSchemes (gs : List (Int × List Fig3Entry)) : SchemeAcc :=
  gs.foldl (fun s g => g.2.foldl (fun s' e => bumpScheme s' (g.1 % 3) e.hit) s) schemeZero

/-- The reporting tail of figure3's `calculate_hit_rates`: iterate the
scheme buckets in dict order 0, 1, 2 and emit `(name, hits/total)` only
for buckets with a nonzero total. -/
def hitRatesOf (s : SchemeAcc) : List (String × ℚ) :=
  (if 0 < s.t0 then [("E0", (s.h0 : ℚ) / (s.t0 : ℚ))] else []) ++
  (if 0 < s.t1 then [("E1", (s.h1 : ℚ) / (s.t1 : ℚ))] else []) ++
  (if 0 < s.t2 then [("E2", (s.h2 : ℚ) / (s.t2 : ℚ))] else [])

/-- figure3's `calculate_hit_rates` on parsed trace data (the final
`(scheme_names, hit_rates)` pair of parallel lists is modelled as one list
of pairs; the `return None, None` wrapper for an empty result is the
caller's concern). -/
def calcHitRates (trace : List Fig3Entry) : List (String × ℚ) :=
  hitRatesOf (accumSchemes (groupByKey Fig3Entry.pipeline trace))

/-- Hit counter of bucket i of the `schemes` dict. -/
def hitsOf (s : SchemeAcc) : Fin 3 → ℕ
  | 0 => s.h0
  | 1 => s.h1
  | 2 => s.h2

/-- Total counter of bucket i of the `schemes` dict. -/
def totalsOf (s : SchemeAcc) : Fin 3 → ℕ
  | 0 => s.t0
  | 1 => s.t1
  | 2 => s.t2

/-- Scheme label of bucket i. -/
def schemeNameOf : Fin 3 → String
  | 0 => "E0"
  | 1 => "E1"
  | 2 => "E2"

/-- Sum of the three total counters. -/
def totalsSum (s : SchemeAcc) : ℕ := s.t0 + s.t1 + s.t2

/-- Sum of the three hit counters. -/
def hitsSum (s : SchemeAcc) : ℕ := s.h0 + s.h1 + s.h2

/-- Componentwise hits-do-not-exceed-totals invariant of the `schemes`
dict. -/
def schemeInv (s : SchemeAcc) : Prop :=
  s.h0 ≤ s.t0 ∧ s.h1 ≤ s.t1 ∧ s.h2 ≤ s.t2

/-- Number of elements satisfying p across all groups of a grouping. -/
def groupCountP {α : Type} (p : α → Bool) (gs : List (Int × List α)) : ℕ :=
  (gs.map (fun g => g.2.countP p)).sum

/-- Bin edge i of the binners over the observed domain of xs: index i of
`np.linspace(min(xs), max(xs), n)` (0 out of range). -/
def edgeOf (xs : List ℚ) (n i : ℕ) : ℚ :=
  (linspace (listMin xs) (listMax xs) n).getD i 0

/-- Half-open membership of x in interval i of the n-point edge grid over
the observed domain of xs. -/
def binPredN (xs : List ℚ) (n i : ℕ) (x : ℚ) : Prop :=
  edgeOf xs n i ≤ x ∧ x < edgeOf xs n (i + 1)

/-- Modelled from the amended claim for figure7's binner: `B - 1`
equal-width half-open bins spanning [min, max) with width
(max - min)/(B - 1), median of member metric_y per bin, (center, median,
member count) recorded, bins with zero members omitted. -/
def binSpecMedian (xs ys : List ℚ) (B : ℕ) : List (ℚ × ℚ × ℕ) :=
  let mn := listMin xs
  let mx := listMax xs
  let w := (mx - mn) / ((B : ℚ) - 1)
  (List.range (B - 1)).filterMap (fun i : ℕ =>
    let lo := mn + w * (i : ℚ)
    let hi := mn + w * ((i : ℚ) + 1)
    let mem := (xs.zip ys).filter (fun p => decide (lo ≤ p.1) && decide (p.1 < hi))
    if 0 < mem.length then some ((lo + hi) / 2, median (mem.map Prod.snd), mem.length)
    else none)

/-- Modelled from the claim as stated: `B` equal-width half-open bins
spanning [min, max] with width (max - min)/B, median of member metric_y
per bin, bins with zero members omitted.  Used only to exhibit how the
code's output differs from it. -/
def binSpecClaim (xs ys : List ℚ) (B : ℕ) : List (ℚ × ℚ × ℕ) :=
  let mn := listMin xs
  let mx := listMax xs
  let w := (mx - mn) / (B : ℚ)
  (List.range B).filterMap (fun i : ℕ =>
    let lo := mn + w * (i : ℚ)
    let hi := mn + w * ((i : ℚ) + 1)
    let mem := (xs.zip ys).filter (fun p => decide (lo ≤ p.1) && decide (p.1 < hi))
    if 0 < mem.length then some ((lo + hi) / 2, median (mem.map Prod.snd), mem.length)
    else none)

/-- Modelled from the amended claim for figure5's binner: `B` equal-width
half-open bins of width (max - min)/B; all bin centers are emitted, each
bin value is the mean of its members' metric_y, and empty bins are
emitted as 0. -/
def binSpecMeanZero (taus peaks : List ℚ) (B : ℕ) : List ℚ × List ℚ :=
  let mn := listMin taus
  let mx := listMax taus
  let w := (mx - mn) / (B : ℚ)
  ((List.range B).map (fun i : ℕ => (mn + w * (i : ℚ) + (mn + w * ((i : ℚ) + 1))) / 2),
   (List.range B).map (fun i : ℕ =>
     let mem := (taus.zip peaks).filter
       (fun p => decide (mn + w * (i : ℚ) ≤ p.1) && decide (p.1 < mn + w * ((i : ℚ) + 1)))
     if 0 < mem.length then listMean (mem.map Prod.snd) else 0))

/-- The three-event block group of the §8 scenario: timestamps 10.000,
10.050 and 10.200 seconds for one block, as figure5 entries. -/
def scenarioGroup5 : List Fig5Entry :=
  [⟨1, 10, 0⟩, ⟨1, 201 / 20, 0⟩, ⟨1, 51 / 5, 0⟩]

/-- The same three-event group as figure7 entries. -/
def scenarioGroup7 : List Fig7Entry :=
  [⟨1, 0, 4096, 10, 0, 0, 0, 0, none, none⟩,
   ⟨1, 0, 4096, 201 / 20, 0, 0, 0, 0, none, none⟩,
   ⟨1, 0, 4096, 51 / 5, 0, 0, 0, 0, none, none⟩]

/-- The same three-event group as figure1 entries. -/
def scenarioGroup1 : List Fig1Entry :=
  [⟨1, 4096, 10, 0, 1, 0, 0⟩, ⟨1, 4096, 201 / 20, 0, 1, 0, 0⟩,
   ⟨1, 4096, 51 / 5, 0, 1, 0, 0⟩]

/-- A 22-event group for one block with one event per second: more than
20 events, so figure5's delta loop stops after the first 20 requests. -/
def group22 : List Fig5Entry :=
  (List.range 22).map (fun i : ℕ => ⟨1, (i : ℚ), 0⟩)

/-- A two-event group with identical timestamps, producing a zero delta. -/
def groupDup7 : List Fig7Entry :=
  [⟨1, 0, 4096, 10, 0, 0, 0, 0, none, none⟩,
   ⟨1, 0, 4096, 10, 0, 0, 0, 0, none, none⟩]

/-- Two figure3 events on pipeline 0: one hit (hit = 1), one miss. -/
def hitTrace3 : List Fig3Entry :=
  [⟨1, 0, 0, 0, 0, 1⟩, ⟨2, 0, 0, 0, 0, 0⟩]

/-- Inserting into a sorted list adds one element. -/
theorem length_insertByKey {α : Type} (key : α → ℚ) (x : α) (l : List α) :
    (insertByKey key x l).length = l.length + 1 := by
  induction l with
  | nil => rfl
  | cons y ys ih => by_cases h : key x ≤ key y <;> simp [insertByKey, h, ih]

/-- Sorting preserves length. -/
theorem length_sortByKey {α : Type} (key : α → ℚ) (l : List α) :
    (sortByKey key l).length = l.length := by
  induction l with
  | nil => rfl
  | cons y ys ih => simp [sortByKey, length_insertByKey, ih]

/-- A list of n timestamps yields n - 1 successive deltas. -/
theorem length_deltasMs (ts : List ℚ) : (deltasMs ts).length = ts.length - 1 := by
  simp [deltasMs]

/-- The pre-filter delta count of figure5's `process_single_block`:
`min 20 len - 1`, because the delta loop stops at the 20th request. -/
theorem fig5DeltasRaw_length (requests : List Fig5Entry) :
    (fig5DeltasRaw requests).length = min 20 requests.length - 1 := by
  simp [fig5DeltasRaw, length_deltasMs, length_sortByKey]

/-- figure7's per-block delta count is always `len - 1`. -/
theorem fig7Deltas_length (requests : List Fig7Entry) :
    (fig7Deltas requests).length = requests.length - 1 := by
  simp [fig7Deltas, length_deltasMs, length_sortByKey]

/-- The §8 scenario group produces exactly the deltas 50 ms and 150 ms in
figure5's analyzer. -/
theorem fig5Deltas_scenario : fig5Deltas scenarioGroup5 = [50, 150] := by
  norm_num [fig5Deltas, scenarioGroup5, fig5DeltasRaw, sortByKey, insertByKey,
    deltasMs, List.filter]

/-- figure5's analyzer output on the scenario group. -/
theorem fig5Block_scenario : fig5Block scenarioGroup5 = some (100, 145) := by
  norm_num [fig5Block, scenarioGroup5, fig5Deltas, fig5DeltasRaw, sortByKey,
    insertByKey, deltasMs, List.filter, listMean, percentile]
  decide

end TracePipe

open TracePipe

/-- C2, corrected.  The claim's pre-filter delta count `len(events) - 1`
fails on figure5's `process_single_block`, whose loop
`for i in range(1, min(20, len(requests)))` computes only
`min 20 len - 1` deltas — here a 22-event group yields 19 deltas, not 21 —
and figure7's `calculate_metrics` applies no per-delta filter at all, here
retaining a zero delta produced by duplicate timestamps. -/
theorem c2_counterexample :
    (fig5DeltasRaw group22).length = 19 ∧ group22.length - 1 = 21 ∧
    fig7Deltas groupDup7 = [0] := by
  have h22 : group22.length = 22 := by
    simp only [group22, List.length_map, List.length_range]
  refine ⟨by rw [fig5DeltasRaw_length, h22]; decide, by rw [h22], ?_⟩
  norm_num [fig7Deltas, groupDup7, sortByKey, insertByKey, deltasMs]

/-- C2, amended: in figure5's per-block analyzer the number of deltas
computed before filtering equals `min 20 len(events) - 1` and every
retained delta d satisfies 0 < d < 20000 (exclusion, not clamping);
figure7's analyzer computes `len(events) - 1` deltas and retains them all
with no per-delta filter. -/
theorem c2_deltas_amended :
    (∀ requests : List Fig5Entry,
        (fig5DeltasRaw requests).length = min 20 requests.length - 1 ∧
        ∀ d ∈ fig5Deltas requests, 0 < d ∧ d < 20000) ∧
    (∀ requests : List Fig7Entry, (fig7Deltas requests).length = requests.length - 1) := by
  refine ⟨fun requests => ⟨fig5DeltasRaw_length requests, ?_⟩,
    fun requests => fig7Deltas_length requests⟩
  intro d hd
  simp only [fig5Deltas, List.mem_filter, Bool.and_eq_true, decide_eq_true_eq] at hd
  exact hd.2

/-- Witness for C2 at the scenario group: its delta 50 is retained and
lies strictly inside (0, 20000). -/
theorem c2_witness :
    (fig5DeltasRaw scenarioGroup5).length = min 20 scenarioGroup5.length - 1 ∧
    0 < (50 : ℚ) ∧ (50 : ℚ) < 20000 :=
  ⟨(c2_deltas_amended.1 scenarioGroup5).1,
   (c2_deltas_amended.1 scenarioGroup5).2 50
     (by rw [fig5Deltas_scenario]; exact List.mem_cons_self 50 [150])⟩

/-- C3, code bug.  The claim (and the spec) say a line with fewer than 8
fields increments the skipped-line counter by exactly 1; in
`parse_trace_file` the guard `if len(values) >= 8` has no else branch and
raises nothing, so a 5-field line is dropped with the counter unchanged —
the first conjunct shows data = [] and skipped = 0, not 1.  The second
conjunct shows the claimed accounting identity also fails because blank
and comment lines do increment the same counter: one comment line, one
blank line and one short line leave skipped = 2 and parsed = 0, while the
claim's identity `skipped + parsed = lines_seen - blank_or_comment` would
require skipped = 1. -/
theorem c3_short_line_uncounted :
    fig1ParseTrace 50000 ["1 2 3 4 5"] = ([], 0) ∧
    fig1ParseTrace 50000 ["# comment", "", "1 2 3 4 5"] = ([], 2) :=
  ⟨by decide, by decide⟩

/-- C4, confirmed.  For the three-event group with timestamps 10.000,
10.050, 10.200 s: deltas [50, 150] ms, typical (mean) 100 ms, and
peak (95th percentile, linear interpolation) 145 ms, in figure5's
analyzer; figure1's variant reports the same 145 ms peak for its scheme
bucket, and figure7's variant reports (α_tti, peak) = (1000/100, 145). -/
theorem c4_scenario_metrics :
    fig5Deltas scenarioGroup5 = [50, 150] ∧
    fig5Block scenarioGroup5 = some (100, 145) ∧
    fig1Pipeline 1 scenarioGroup1 = some (1, 145) ∧
    fig7Block scenarioGroup7 = some (10, 145) := by
  refine ⟨fig5Deltas_scenario, fig5Block_scenario, ?_, ?_⟩
  · norm_num [fig1Pipeline, scenarioGroup1, fig1Deltas, sortByKey, insertByKey,
      deltasMs, List.filter, percentile]
    decide
  · norm_num [fig7Block, scenarioGroup7, fig7Deltas, sortByKey, insertByKey,
      deltasMs, List.filter, listMean, percentile]
    decide

/-- C8, confirmed: a group with fewer than two events, or whose filtered
delta list is empty, contributes no sample in any of the three analyzers —
it is dropped, never emitted with sentinel or zero values. -/
theorem c8_empty_group_dropped :
    ∀ (requests1 : List Fig1Entry) (requests5 : List Fig5Entry)
      (requests7 : List Fig7Entry) (pid : Int),
      (requests1.length < 2 → fig1Pipeline pid requests1 = none) ∧
      (fig1Deltas requests1 = [] → fig1Pipeline pid requests1 = none) ∧
      (requests5.length < 2 → fig5Block requests5 = none) ∧
      (fig5Deltas requests5 = [] → fig5Block requests5 = none) ∧
      (requests7.length < 2 → fig7Block requests7 = none) := by
  intro requests1 requests5 requests7 pid
  refine ⟨fun h => by simp [fig1Pipeline, h], fun h => ?_,
    fun h => by simp [fig5Block, h], fun h => ?_, fun h => by simp [fig7Block, h]⟩
  · by_cases hl : requests1.length < 2 <;> simp [fig1Pipeline, hl, h]
  · by_cases hl : requests5.length < 2 <;> simp [fig5Block, hl, h]

/-- C9, confirmed: in figure7's `parse_trace_file`, when the 8 required
fields of a line all convert but a present optional trailing field (the
9th, or the 10th when present) fails integer conversion, the exception is
raised before `data.append(entry)`, so the whole line is discarded: no
event is emitted and the skipped-line counter increments by exactly 1. -/
theorem c9_bad_optional_field_skips_line :
    ∀ (line : String) (data : List Fig7Entry) (skipped : ℕ),
      ¬((stripChars line.data).headD ' ' = '#' ∨ stripChars line.data = []) →
      8 ≤ (wsSplit (stripChars line.data)).length →
      (parseIntCs ((wsSplit (stripChars line.data)).getD 0 [])).isSome →
      (parseIntCs ((wsSplit (stripChars line.data)).getD 1 [])).isSome →
      (parseIntCs ((wsSplit (stripChars line.data)).getD 2 [])).isSome →
      (parseFloatCs ((wsSplit (stripChars line.data)).getD 3 [])).isSome →
      (parseIntCs ((wsSplit (stripChars line.data)).getD 4 [])).isSome →
      (parseIntCs ((wsSplit (stripChars line.data)).getD 5 [])).isSome →
      (parseIntCs ((wsSplit (stripChars line.data)).getD 6 [])).isSome →
      (parseIntCs ((wsSplit (stripChars line.data)).getD 7 [])).isSome →
      ((8 < (wsSplit (stripChars line.data)).length ∧
          parseIntCs ((wsSplit (stripChars line.data)).getD 8 []) = none) ∨
       (9 < (wsSplit (stripChars line.data)).length ∧
          parseIntCs ((wsSplit (stripChars line.data)).getD 9 []) = none)) →
      fig7ParseLine line = LineOutcome.bad ∧
      parseStep fig7ParseLine (data, skipped) line = (data, skipped + 1) := by
  intro line data skipped hnb hlen h0 h1 h2 h3 h4 h5 h6 h7 hopt
  obtain ⟨v0, hv0⟩ := Option.isSome_iff_exists.mp h0
  obtain ⟨v1, hv1⟩ := Option.isSome_iff_exists.mp h1
  obtain ⟨v2, hv2⟩ := Option.isSome_iff_exists.mp h2
  obtain ⟨v3, hv3⟩ := Option.isSome_iff_exists.mp h3
  obtain ⟨v4, hv4⟩ := Option.isSome_iff_exists.mp h4
  obtain ⟨v5, hv5⟩ := Option.isSome_iff_exists.mp h5
  obtain ⟨v6, hv6⟩ := Option.isSome_iff_exists.mp h6
  obtain ⟨v7, hv7⟩ := Option.isSome_iff_exists.mp h7
  have hmain : fig7ParseLine line = LineOutcome.bad := by
    unfold fig7ParseLine
    rw [if_neg hnb, if_pos hlen, hv0, hv1, hv2, hv3, hv4, hv5, hv6, hv7]
    rcases hopt with ⟨hlt8, hnone8⟩ | ⟨hlt9, hnone9⟩
    · simp only [if_pos hlt8, hnone8]
    · have hlt8 : 8 < (wsSplit (stripChars line.data)).length := by omega
      cases h8v : parseIntCs ((wsSplit (stripChars line.data)).getD 8 []) with
      | none => simp only [if_pos hlt8, h8v]
      | some sh => simp only [if_pos hlt8, h8v, if_pos hlt9, hnone9]
  exact ⟨hmain, by simp [parseStep, hmain]⟩

/-- Witness for C9: the line `1 2 3 4 5 6 7 8 x` has 8 good required
fields and a bad 9th field; it is discarded and counted as skipped. -/
theorem c9_witness :
    fig7ParseLine "1 2 3 4 5 6 7 8 x" = LineOutcome.bad ∧
    parseStep fig7ParseLine ([], 0) "1 2 3 4 5 6 7 8 x" = ([], 1) :=
  c9_bad_optional_field_skips_line "1 2 3 4 5 6 7 8 x" [] 0 (by decide) (by decide)
    (by decide) (by decide) (by decide) (by decide) (by decide) (by decide)
    (by decide) (by decide) (Or.inl ⟨by decide, by decide⟩)

/-- Witness for C8: a single-event group is dropped by all analyzers. -/
theorem c8_witness :
    fig1Pipeline 0 [⟨1, 4096, 10, 0, 0, 0, 0⟩] = none ∧
    fig5Block [⟨1, 10, 0⟩] = none ∧
    fig7Block [⟨1, 0, 4096, 10, 0, 0, 0, 0, none, none⟩] = none :=
  ⟨(c8_empty_group_dropped [⟨1, 4096, 10, 0, 0, 0, 0⟩] [] [] 0).1 (by decide),
   (c8_empty_group_dropped [] [⟨1, 10, 0⟩] [] 0).2.2.1 (by decide),
   (c8_empty_group_dropped [] [] [⟨1, 0, 4096, 10, 0, 0, 0, 0, none, none⟩] 0).2.2.2.2
     (by decide)⟩

namespace TracePipe

/-- A property preserved by each fold step holds after the whole fold. -/
theorem foldl_preserve {σ α : Type} (P : σ → Prop) (f : σ → α → σ)
    (hf : ∀ s a, P s → P (f s a)) :
    ∀ (l : List α) (s : σ), P s → P (l.foldl f s) := by
  intro l
  induction l with
  | nil => exact fun s hs => hs
  | cons a t ih => exact fun s hs => ih (f s a) (hf s a hs)

/-- One bump keeps hits below totals in every bucket. -/
theorem schemeInv_bump (s : SchemeAcc) (sid hit : Int) (h : schemeInv s) :
    schemeInv (bumpScheme s sid hit) := by
  simp only [bumpScheme, schemeInv] at h ⊢
  split_ifs <;> simp_all <;> omega

/-- Hits never exceed totals in any bucket of the accumulated dict. -/
theorem schemeInv_accum (gs : List (Int × List Fig3Entry)) :
    schemeInv (accumSchemes gs) := by
  unfold accumSchemes
  refine foldl_preserve schemeInv _ ?_ gs schemeZero (by simp [schemeZero, schemeInv])
  intro s g hs
  exact foldl_preserve schemeInv _ (fun s' e hs' => schemeInv_bump s' (g.1 % 3) e.hit hs') g.2 s hs

/-- Every bump adds exactly 1 to the sum of totals. -/
theorem totalsSum_bump (s : SchemeAcc) (sid hit : Int) :
    totalsSum (bumpScheme s sid hit) = totalsSum s + 1 := by
  simp only [bumpScheme, totalsSum]
  split_ifs <;> simp <;> omega

/-- Every bump adds 1 to the sum of hits exactly when hit = 1. -/
theorem hitsSum_bump (s : SchemeAcc) (sid hit : Int) :
    hitsSum (bumpScheme s sid hit) = hitsSum s + (if hit = 1 then 1 else 0) := by
  simp only [bumpScheme, hitsSum]
  split_ifs <;> simp <;> omega

/-- Folding one group adds its size to the sum of totals. -/
theorem totalsSum_foldGroup (k : Int) (l : List Fig3Entry) :
    ∀ s, totalsSum (l.foldl (fun s' e => bumpScheme s' k e.hit) s) =
      totalsSum s + l.length := by
  induction l with
  | nil => simp
  | cons e t ih =>
    intro s
    rw [List.foldl_cons, ih, totalsSum_bump, List.length_cons]
    omega

/-- Folding one group adds its hit count to the sum of hits. -/
theorem hitsSum_foldGroup (k : Int) (l : List Fig3Entry) :
    ∀ s, hitsSum (l.foldl (fun s' e => bumpScheme s' k e.hit) s) =
      hitsSum s + l.countP (fun e => decide (e.hit = 1)) := by
  induction l with
  | nil => simp
  | cons e t ih =>
    intro s
    rw [List.foldl_cons, ih, hitsSum_bump, List.countP_cons]
    simp only [decide_eq_true_eq]
    omega

/-- The sum of totals of the accumulated dict counts all grouped events. -/
theorem totalsSum_accum (gs : List (Int × List Fig3Entry)) :
    totalsSum (accumSchemes gs) = groupCountP (fun _ => true) gs := by
  suffices h : ∀ s, totalsSum (gs.foldl
      (fun s g => g.2.foldl (fun s' e => bumpScheme s' (g.1 % 3) e.hit) s) s) =
      totalsSum s + groupCountP (fun _ => true) gs by
    simpa [accumSchemes, schemeZero, totalsSum] using h schemeZero
  induction gs with
  | nil => simp [groupCountP]
  | cons g t ih =>
    intro s
    rw [List.foldl_cons, ih, totalsSum_foldGroup]
    simp [groupCountP]
    omega

/-- The sum of hits of the accumulated dict counts all grouped hit = 1
events. -/
theorem hitsSum_accum (gs : List (Int × List Fig3Entry)) :
    hitsSum (accumSchemes gs) = groupCountP (fun e => decide (e.hit = 1)) gs := by
  suffices h : ∀ s, hitsSum (gs.foldl
      (fun s g => g.2.foldl (fun s' e => bumpScheme s' (g.1 % 3) e.hit) s) s) =
      hitsSum s + groupCountP (fun e => decide (e.hit = 1)) gs by
    simpa [accumSchemes, schemeZero, hitsSum] using h schemeZero
  induction gs with
  | nil => simp [groupCountP]
  | cons g t ih =>
    intro s
    rw [List.foldl_cons, ih, hitsSum_foldGroup]
    simp [groupCountP]
    omega

/-- Inserting an event into the grouping adds its p-count. -/
theorem groupCountP_insertGroup {α : Type} (p : α → Bool)
    (gs : List (Int × List α)) (k : Int) (e : α) :
    groupCountP p (insertGroup gs k e) = groupCountP p gs + (if p e then 1 else 0) := by
  induction gs with
  | nil => simp [insertGroup, groupCountP, List.countP_cons]
  | cons g t ih =>
    rcases g with ⟨k', l⟩
    by_cases hk : k' = k
    · simp [insertGroup, hk, groupCountP, List.countP_append, List.countP_cons]
      omega
    · simp [insertGroup, hk, groupCountP] at ih ⊢
      omega

/-- Grouping preserves p-counts. -/
theorem groupCountP_foldl {α : Type} (p : α → Bool) (key : α → Int) :
    ∀ (l : List α) (gs : List (Int × List α)),
      groupCountP p (l.foldl (fun gs e => insertGroup gs (key e) e) gs) =
        groupCountP p gs + l.countP p := by
  intro l
  induction l with
  | nil => simp
  | cons e t ih =>
    intro gs
    rw [List.foldl_cons, ih, groupCountP_insertGroup, List.countP_cons]
    omega

/-- The grouped p-count equals the trace's p-count. -/
theorem groupCountP_groupByKey {α : Type} (p : α → Bool) (key : α → Int) (l : List α) :
    groupCountP p (groupByKey key l) = l.countP p := by
  simpa [groupByKey, groupCountP] using groupCountP_foldl p key l []

end TracePipe

/-- C10, confirmed: every parsed event lands in exactly one of the three
buckets (pipeline % 3 is 0, 1 or 2) and bumps exactly one total, so the
bucket totals sum to the number of parsed events; the hit sums count
exactly the events whose hit field equals 1, and no bucket's hits exceed
its total. -/
theorem c10_bucket_accounting :
    ∀ trace : List Fig3Entry,
      totalsSum (accumSchemes (groupByKey Fig3Entry.pipeline trace)) = trace.length ∧
      hitsSum (accumSchemes (groupByKey Fig3Entry.pipeline trace)) =
        trace.countP (fun e => decide (e.hit = 1)) ∧
      (∀ i : Fin 3,
        hitsOf (accumSchemes (groupByKey Fig3Entry.pipeline trace)) i ≤
          totalsOf (accumSchemes (groupByKey Fig3Entry.pipeline trace)) i) ∧
      (∀ p : Int, p % 3 = 0 ∨ p % 3 = 1 ∨ p % 3 = 2) := by
  intro trace
  have hinv := schemeInv_accum (groupByKey Fig3Entry.pipeline trace)
  refine ⟨?_, ?_, ?_, fun p => by omega⟩
  · rw [totalsSum_accum, groupCountP_groupByKey]
    simp
  · rw [hitsSum_accum, groupCountP_groupByKey]
  · intro i
    fin_cases i <;> simp [hitsOf, totalsOf] <;> [exact hinv.1; exact hinv.2.1; exact hinv.2.2]

namespace TracePipe

/-- An exact rational h/t with h ≤ t and t > 0 lies in [0, 1]. -/
theorem rate_bounds (h t : ℕ) (hle : h ≤ t) (ht : 0 < t) :
    0 ≤ (h : ℚ) / (t : ℚ) ∧ (h : ℚ) / (t : ℚ) ≤ 1 := by
  constructor
  · positivity
  · rw [div_le_one (by positivity)]
    exact_mod_cast hle

/-- Membership in the reported hit-rate list, characterized bucketwise. -/
theorem mem_hitRatesOf {s : SchemeAcc} {nm : String} {r : ℚ} :
    (nm, r) ∈ hitRatesOf s ↔
      (0 < s.t0 ∧ nm = "E0" ∧ r = (s.h0 : ℚ) / (s.t0 : ℚ)) ∨
      (0 < s.t1 ∧ nm = "E1" ∧ r = (s.h1 : ℚ) / (s.t1 : ℚ)) ∨
      (0 < s.t2 ∧ nm = "E2" ∧ r = (s.h2 : ℚ) / (s.t2 : ℚ)) := by
  unfold hitRatesOf
  by_cases h0 : 0 < s.t0 <;> by_cases h1 : 0 < s.t1 <;> by_cases h2 : 0 < s.t2 <;>
    simp [h0, h1, h2, Prod.ext_iff]

end TracePipe

/-- C5, confirmed: every scheme the Hit-Rate Accumulator reports comes
from a bucket assigned by pipeline % 3, its rate equals hit_count /
total_count exactly and lies in [0, 1], and buckets with zero total are
excluded from the output rather than reported as 0. -/
theorem c5_hit_rate_contract :
    (∀ (trace : List Fig3Entry) (nm : String) (r : ℚ),
      (nm, r) ∈ calcHitRates trace →
      0 ≤ r ∧ r ≤ 1 ∧
      ∃ i : Fin 3, nm = schemeNameOf i ∧
        0 < totalsOf (accumSchemes (groupByKey Fig3Entry.pipeline trace)) i ∧
        r = (hitsOf (accumSchemes (groupByKey Fig3Entry.pipeline trace)) i : ℚ) /
            (totalsOf (accumSchemes (groupByKey Fig3Entry.pipeline trace)) i : ℚ)) ∧
    (∀ (trace : List Fig3Entry) (i : Fin 3) (r : ℚ),
      totalsOf (accumSchemes (groupByKey Fig3Entry.pipeline trace)) i = 0 →
      (schemeNameOf i, r) ∉ calcHitRates trace) := by
  constructor
  · intro trace nm r hmem
    have hinv := schemeInv_accum (groupByKey Fig3Entry.pipeline trace)
    rw [calcHitRates] at hmem
    rcases mem_hitRatesOf.mp hmem with ⟨ht, hn, hr⟩ | ⟨ht, hn, hr⟩ | ⟨ht, hn, hr⟩
    · obtain ⟨hb0, hb1⟩ := rate_bounds _ _ hinv.1 ht
      exact ⟨hr ▸ hb0, hr ▸ hb1, ⟨0, hn, ht, hr⟩⟩
    · obtain ⟨hb0, hb1⟩ := rate_bounds _ _ hinv.2.1 ht
      exact ⟨hr ▸ hb0, hr ▸ hb1, ⟨1, hn, ht, hr⟩⟩
    · obtain ⟨hb0, hb1⟩ := rate_bounds _ _ hinv.2.2 ht
      exact ⟨hr ▸ hb0, hr ▸ hb1, ⟨2, hn, ht, hr⟩⟩
  · intro trace i r h0 hmem
    rw [calcHitRates] at hmem
    fin_cases i <;>
      rcases mem_hitRatesOf.mp hmem with ⟨ht, hn, hr⟩ | ⟨ht, hn, hr⟩ | ⟨ht, hn, hr⟩ <;>
      simp_all [totalsOf, schemeNameOf]

/-- Evaluation of the hit-rate pipeline on the two-event example trace. -/
theorem calcHitRates_hitTrace3 : calcHitRates hitTrace3 = [("E0", 1 / 2)] := by
  have hacc : accumSchemes (groupByKey Fig3Entry.pipeline hitTrace3) =
      ⟨1, 2, 0, 0, 0, 0⟩ := by decide
  rw [calcHitRates, hacc]
  norm_num [hitRatesOf]

/-- Witness for C5: on the two-event example trace, the reported rate
1/2 is within bounds and the zero-total scheme E2 is not reported. -/
theorem c5_witness :
    0 ≤ (1 / 2 : ℚ) ∧ (1 / 2 : ℚ) ≤ 1 ∧
    ("E2", (0 : ℚ)) ∉ calcHitRates hitTrace3 :=
  ⟨(c5_hit_rate_contract.1 hitTrace3 "E0" (1 / 2)
      (by rw [calcHitRates_hitTrace3]; exact List.mem_singleton.mpr rfl)).1,
   (c5_hit_rate_contract.1 hitTrace3 "E0" (1 / 2)
      (by rw [calcHitRates_hitTrace3]; exact List.mem_singleton.mpr rfl)).2.1,
   c5_hit_rate_contract.2 hitTrace3 2 0 (by decide)⟩

namespace TracePipe

/-- The min-fold is below its seed and every list element. -/
theorem foldl_min_le (l : List ℚ) :
    ∀ a : ℚ, l.foldl min a ≤ a ∧ ∀ x ∈ l, l.foldl min a ≤ x := by
  induction l with
  | nil => simp
  | cons b t ih =>
    intro a
    rw [List.foldl_cons]
    refine ⟨(ih (min a b)).1.trans (min_le_left a b), ?_⟩
    intro x hx
    rcases List.mem_cons.mp hx with rfl | hx
    · exact (ih (min a x)).1.trans (min_le_right a x)
    · exact (ih (min a b)).2 x hx

/-- The max-fold is above its seed and every list element. -/
theorem le_foldl_max (l : List ℚ) :
    ∀ a : ℚ, a ≤ l.foldl max a ∧ ∀ x ∈ l, x ≤ l.foldl max a := by
  induction l with
  | nil => simp
  | cons b t ih =>
    intro a
    rw [List.foldl_cons]
    refine ⟨(le_max_left a b).trans (ih (max a b)).1, ?_⟩
    intro x hx
    rcases List.mem_cons.mp hx with rfl | hx
    · exact (le_max_right a x).trans (ih (max a x)).1
    · exact (ih (max a b)).2 x hx

/-- `min(xs)` is a lower bound of xs. -/
theorem listMin_le (xs : List ℚ) : ∀ x ∈ xs, listMin xs ≤ x := by
  cases xs with
  | nil => simp
  | cons a t =>
    intro x hx
    rcases List.mem_cons.mp hx with rfl | hx
    · exact (foldl_min_le t x).1
    · exact (foldl_min_le t a).2 x hx

/-- `max(xs)` is an upper bound of xs. -/
theorem le_listMax (xs : List ℚ) : ∀ x ∈ xs, x ≤ listMax xs := by
  cases xs with
  | nil => simp
  | cons a t =>
    intro x hx
    rcases List.mem_cons.mp hx with rfl | hx
    · exact (le_foldl_max t x).1
    · exact (le_foldl_max t a).2 x hx

/-- min ≤ max on a nonempty list. -/
theorem listMin_le_listMax (xs : List ℚ) (h : xs ≠ []) : listMin xs ≤ listMax xs := by
  cases xs with
  | nil => exact absurd rfl h
  | cons a t =>
    exact (listMin_le (a :: t) a (List.mem_cons_self a t)).trans
      (le_listMax (a :: t) a (List.mem_cons_self a t))

/-- Closed form of the in-range linspace edges. -/
theorem edgeOf_eq (xs : List ℚ) (n i : ℕ) (h : i < n) :
    edgeOf xs n i =
      listMin xs + (listMax xs - listMin xs) * (i : ℚ) / ((n : ℚ) - 1) := by
  simp [edgeOf, linspace, List.getElem?_map, List.getElem?_range h]

/-- Shape of figure7's binning loop: the three parallel lists collect the
centers, medians and counts of the nonempty bins, in index order. -/
theorem fig7_loop (pairs : List (ℚ × ℚ)) (edges : List ℚ) :
    ∀ (idxs : List ℕ) (acc : List ℚ × List ℚ × List ℕ),
      idxs.foldl (fig7BinStep pairs edges) acc =
        (acc.1 ++ (idxs.filter
            (fun i => decide (0 < (binMembers pairs edges i).length))).map
            (fun i => (edges.getD i 0 + edges.getD (i + 1) 0) / 2),
         acc.2.1 ++ (idxs.filter
            (fun i => decide (0 < (binMembers pairs edges i).length))).map
            (fun i => median ((binMembers pairs edges i).map Prod.snd)),
         acc.2.2 ++ (idxs.filter
            (fun i => decide (0 < (binMembers pairs edges i).length))).map
            (fun i => (binMembers pairs edges i).length)) := by
  intro idxs
  induction idxs with
  | nil => simp
  | cons i t ih =>
    intro acc
    rw [List.foldl_cons, ih]
    by_cases h : 0 < (binMembers pairs edges i).length
    · simp [fig7BinStep, h, List.filter_cons]
    · simp [fig7BinStep, h, List.filter_cons]

/-- Shape of figure5's binning loop: both lists collect one value per bin
index, the member mean for nonempty bins and 0 for empty ones. -/
theorem fig5_loop (pairs : List (ℚ × ℚ)) (edges : List ℚ) :
    ∀ (idxs : List ℕ) (acc : List ℚ × List ℚ),
      idxs.foldl (fig5BinStep pairs edges) acc =
        (acc.1 ++ idxs.map (fun i =>
            if 0 < (binMembers pairs edges i).length then
              listMean ((binMembers pairs edges i).map Prod.fst) else 0),
         acc.2 ++ idxs.map (fun i =>
            if 0 < (binMembers pairs edges i).length then
              listMean ((binMembers pairs edges i).map Prod.snd) else 0)) := by
  intro idxs
  induction idxs with
  | nil => simp
  | cons i t ih =>
    intro acc
    rw [List.foldl_cons, ih]
    by_cases h : 0 < (binMembers pairs edges i).length
    · simp [fig5BinStep, h]
    · simp [fig5BinStep, h]

/-- Pairing a list with its tail enumerates consecutive pairs by index. -/
theorem zipWith_tail_eq (f : ℚ → ℚ → ℚ) :
    ∀ l : List ℚ, List.zipWith f l l.tail =
      (List.range (l.length - 1)).map (fun i => f (l.getD i 0) (l.getD (i + 1) 0)) := by
  intro l
  induction l with
  | nil => simp
  | cons a t ih =>
    cases t with
    | nil => simp
    | cons b u =>
      simp only [List.tail_cons] at ih ⊢
      have hr : (a :: b :: u).length - 1 = ((b :: u).length - 1) + 1 := by simp
      rw [hr, List.range_succ_eq_map, List.map_cons, List.map_map,
        List.zipWith_cons_cons, ih]
      exact congrArg₂ _ (by simp) (List.map_congr_left (fun i _ => by simp))

/-- A filterMap by a guarded some is a filter followed by a map. -/
theorem filterMap_guard {β : Type} (P : ℕ → Prop) [DecidablePred P] (f : ℕ → β) :
    ∀ l : List ℕ,
      l.filterMap (fun i => if P i then some (f i) else none) =
        (l.filter (fun i => decide (P i))).map f := by
  intro l
  induction l with
  | nil => simp
  | cons i t ih =>
    by_cases h : P i <;> simp [List.filter_cons, h, ih]

end TracePipe

namespace TracePipe

/-- Folding min over copies of the seed gives the seed. -/
theorem foldl_min_const (l : List ℚ) :
    ∀ a : ℚ, (∀ x ∈ l, x = a) → l.foldl min a = a := by
  induction l with
  | nil => simp
  | cons b t ih =>
    intro a h
    have hb : b = a := h b (List.mem_cons_self b t)
    rw [List.foldl_cons, hb, min_self]
    exact ih a (fun x hx => h x (List.mem_cons_of_mem b hx))

/-- Folding max over copies of the seed gives the seed. -/
theorem foldl_max_const (l : List ℚ) :
    ∀ a : ℚ, (∀ x ∈ l, x = a) → l.foldl max a = a := by
  induction l with
  | nil => simp
  | cons b t ih =>
    intro a h
    have hb : b = a := h b (List.mem_cons_self b t)
    rw [List.foldl_cons, hb, max_self]
    exact ih a (fun x hx => h x (List.mem_cons_of_mem b hx))

/-- The min of a nonempty constant list is that constant. -/
theorem listMin_const (xs : List ℚ) (c : ℚ) (hne : xs ≠ [])
    (h : ∀ x ∈ xs, x = c) : listMin xs = c := by
  cases xs with
  | nil => exact absurd rfl hne
  | cons a t =>
    have ha : a = c := h a (List.mem_cons_self a t)
    subst ha
    exact foldl_min_const t a (fun x hx => h x (List.mem_cons_of_mem a hx))

/-- The max of a nonempty constant list is that constant. -/
theorem listMax_const (xs : List ℚ) (c : ℚ) (hne : xs ≠ [])
    (h : ∀ x ∈ xs, x = c) : listMax xs = c := by
  cases xs with
  | nil => exact absurd rfl hne
  | cons a t =>
    have ha : a = c := h a (List.mem_cons_self a t)
    subst ha
    exact foldl_max_const t a (fun x hx => h x (List.mem_cons_of_mem a hx))

/-- A degenerate linspace is a constant list. -/
theorem linspace_const (c : ℚ) (n : ℕ) : linspace c c n = List.replicate n c := by
  simp [linspace, List.map_const']

/-- Over a degenerate edge grid, every bin is the empty half-open
interval [c, c), so it has no members from a constant-x pair list. -/
theorem binMembers_const_empty (xs ys : List ℚ) (c : ℚ) (n i : ℕ)
    (hconst : ∀ x ∈ xs, x = c) (hi : i + 1 < n) :
    binMembers (xs.zip ys) (List.replicate n c) i = [] := by
  rw [binMembers, List.filter_eq_nil_iff]
  intro p hp
  have hx : p.1 ∈ xs := (List.of_mem_zip (by exact hp)).1
  have hxc : p.1 = c := hconst p.1 hx
  have h1 : (List.replicate n c).getD i 0 = c := by
    simp [List.getD_eq_getElem?_getD, List.getElem?_replicate_of_lt (by omega : i < n)]
  have h2 : (List.replicate n c).getD (i + 1) 0 = c := by
    simp [List.getD_eq_getElem?_getD, List.getElem?_replicate_of_lt hi]
  rw [h1, h2, hxc]
  simp [inBin]

end TracePipe

/-- C7, corrected.  When all metric_x values are identical, the claimed
single bin holding all N pairs never appears: both binners build a
degenerate grid whose every bin is the empty half-open interval [c, c),
so figure7's binner emits no bins at all (its outlier check aside, no
error occurs — the result is just empty), and figure5's binner returns B
zero-filled bins.  Proved for every constant input. -/
theorem c7_const_input_amended :
    ∀ (xs ys : List ℚ) (B : ℕ) (c : ℚ), xs ≠ [] → (∀ x ∈ xs, x = c) →
      fig7Binned xs ys B = ([], [], []) ∧
      fig5Binned xs ys B = (List.replicate B c, List.replicate B 0) := by
  intro xs ys B c hne hconst
  have hmin := listMin_const xs c hne hconst
  have hmax := listMax_const xs c hne hconst
  constructor
  · rw [fig7Binned]
    rw [hmin, hmax, linspace_const]
    rw [fig7_loop]
    have hfil : (List.range ((List.replicate B c).length - 1)).filter
        (fun i => decide (0 < (binMembers (xs.zip ys) (List.replicate B c) i).length)) = [] := by
      rw [List.filter_eq_nil_iff]
      intro i hi
      rw [List.length_replicate] at hi
      rw [binMembers_const_empty xs ys c B i hconst
        (by have := List.mem_range.mp hi; omega)]
      simp
    rw [List.length_replicate] at hfil
    simp [hfil]
  · rw [fig5Binned]
    rw [hmin, hmax, linspace_const]
    rw [fig5_loop]
    dsimp only
    rw [Prod.ext_iff]
    dsimp only
    constructor
    · rw [zipWith_tail_eq]
      rw [List.length_replicate]
      have : ∀ i ∈ List.range (B + 1 - 1),
          ((List.replicate (B + 1) c).getD i 0 + (List.replicate (B + 1) c).getD (i + 1) 0) / 2
            = c := by
        intro i hi
        have hi' := List.mem_range.mp hi
        have h1 : (List.replicate (B + 1) c).getD i 0 = c := by
          simp [List.getD_eq_getElem?_getD, List.getElem?_replicate_of_lt (by omega : i < B + 1)]
        have h2 : (List.replicate (B + 1) c).getD (i + 1) 0 = c := by
          simp [List.getD_eq_getElem?_getD,
            List.getElem?_replicate_of_lt (by omega : i + 1 < B + 1)]
        rw [h1, h2]
        ring
      rw [List.map_congr_left this, List.map_const', List.length_range]
      norm_num
    · have : ∀ i ∈ List.range B,
          (if 0 < (binMembers (xs.zip ys) (List.replicate (B + 1) c) i).length then
            listMean ((binMembers (xs.zip ys) (List.replicate (B + 1) c) i).map Prod.snd)
          else (0 : ℚ)) = 0 := by
        intro i hi
        have hi' := List.mem_range.mp hi
        rw [binMembers_const_empty xs ys c (B + 1) i hconst (by omega)]
        simp
      simp only [List.nil_append]
      rw [List.map_congr_left this, List.map_const', List.length_range]

/-- Witness for C7 at a fresh constant input: 4 pairs with all metric_x
equal to 7, binned into 2 requested bins. -/
theorem c7_witness :
    fig7Binned (List.replicate 4 7) (List.replicate 4 1) 2 = ([], [], []) ∧
    fig5Binned (List.replicate 4 7) (List.replicate 4 1) 2 =
      (List.replicate 2 7, List.replicate 2 0) :=
  c7_const_input_amended (List.replicate 4 7) (List.replicate 4 1) 2 7
    (by decide) (by decide)

/-- C7, counterexample at the claim's own scenario: 20 pairs with
identical metric_x requested into 5 bins yield an empty result from
figure7's binner (no bin with member_count = 20 is emitted) and 5
zero-filled bins from figure5's. -/
theorem c7_counterexample :
    fig7Binned (List.replicate 20 3) (List.replicate 20 1) 5 = ([], [], []) ∧
    fig5Binned (List.replicate 20 3) (List.replicate 20 1) 5 =
      (List.replicate 5 3, List.replicate 5 0) := by
  constructor
  · norm_num [fig7Binned, fig7BinStep, binMembers, inBin, List.filter, listMin, listMax,
      linspace, List.range_succ, min_def, max_def, List.foldl, List.replicate]
  · norm_num [fig5Binned, fig5BinStep, binMembers, inBin, List.filter, listMean, listMin,
      listMax, linspace, List.range_succ, min_def, max_def, List.foldl, List.replicate]

namespace TracePipe

/-- Closed form of an in-range edge of the B-point grid. -/
theorem edge_closed (xs : List ℚ) (B j : ℕ) (hj : j < B) :
    (linspace (listMin xs) (listMax xs) B).getD j 0 =
      listMin xs + (listMax xs - listMin xs) / ((B : ℚ) - 1) * (j : ℚ) := by
  rw [show (linspace (listMin xs) (listMax xs) B).getD j 0 = edgeOf xs B j from rfl,
    edgeOf_eq xs B j hj]
  ring

/-- Bin membership over figure7's B-point grid, in closed form. -/
theorem binMembers_closedB (xs ys : List ℚ) (B i : ℕ) (hB : 2 ≤ B) (hi : i < B - 1) :
    binMembers (xs.zip ys) (linspace (listMin xs) (listMax xs) B) i =
      (xs.zip ys).filter (fun p =>
        decide (listMin xs + (listMax xs - listMin xs) / ((B : ℚ) - 1) * (i : ℚ) ≤ p.1) &&
        decide (p.1 <
          listMin xs + (listMax xs - listMin xs) / ((B : ℚ) - 1) * ((i : ℚ) + 1))) := by
  have h1 := edge_closed xs B i (by omega)
  have h2 : (linspace (listMin xs) (listMax xs) B).getD (i + 1) 0 =
      listMin xs + (listMax xs - listMin xs) / ((B : ℚ) - 1) * ((i : ℚ) + 1) := by
    rw [edge_closed xs B (i + 1) (by omega)]
    push_cast
    ring
  rw [binMembers, h1, h2]
  rfl

/-- Bin membership over figure5's (B+1)-point grid, in closed form. -/
theorem binMembers_closedB1 (xs ys : List ℚ) (B i : ℕ) (hi : i < B) :
    binMembers (xs.zip ys) (linspace (listMin xs) (listMax xs) (B + 1)) i =
      (xs.zip ys).filter (fun p =>
        decide (listMin xs + (listMax xs - listMin xs) / (B : ℚ) * (i : ℚ) ≤ p.1) &&
        decide (p.1 < listMin xs + (listMax xs - listMin xs) / (B : ℚ) * ((i : ℚ) + 1))) := by
  have h1 : (linspace (listMin xs) (listMax xs) (B + 1)).getD i 0 =
      listMin xs + (listMax xs - listMin xs) / (B : ℚ) * (i : ℚ) := by
    rw [edge_closed xs (B + 1) i (by omega)]
    push_cast
    ring
  have h2 : (linspace (listMin xs) (listMax xs) (B + 1)).getD (i + 1) 0 =
      listMin xs + (listMax xs - listMin xs) / (B : ℚ) * ((i : ℚ) + 1) := by
    rw [edge_closed xs (B + 1) (i + 1) (by omega)]
    push_cast
    ring
  rw [binMembers, h1, h2]
  rfl

end TracePipe

/-- figure7's binner equals the reference with B - 1 equal-width
half-open bins, medians, and omission of empty bins. -/
theorem fig7Binned_refines :
    ∀ (xs ys : List ℚ) (B : ℕ), 2 ≤ B →
      fig7Binned xs ys B =
        ((binSpecMedian xs ys B).map (fun b => b.1),
         (binSpecMedian xs ys B).map (fun b => b.2.1),
         (binSpecMedian xs ys B).map (fun b => b.2.2)) := by
  intro xs ys B hB
  have hlen : (linspace (listMin xs) (listMax xs) B).length = B := by simp [linspace]
  simp only [fig7Binned, binSpecMedian]
  rw [hlen, fig7_loop, filterMap_guard]
  have hfil : (List.range (B - 1)).filter
      (fun i => decide (0 < (binMembers (xs.zip ys)
        (linspace (listMin xs) (listMax xs) B) i).length)) =
    (List.range (B - 1)).filter
      (fun i : ℕ => decide (0 < ((xs.zip ys).filter (fun p =>
        decide (listMin xs + (listMax xs - listMin xs) / ((B : ℚ) - 1) * (i : ℚ) ≤ p.1) &&
        decide (p.1 <
          listMin xs + (listMax xs - listMin xs) / ((B : ℚ) - 1) * ((i : ℚ) + 1)))).length)) := by
    refine List.filter_congr ?_
    intro i hi
    rw [binMembers_closedB xs ys B i hB (List.mem_range.mp hi)]
  simp only [Prod.mk.injEq, List.nil_append, List.map_map]
  refine ⟨?_, ?_, ?_⟩
  · rw [hfil]
    refine List.map_congr_left ?_
    intro i hi
    have hir := List.mem_range.mp (List.mem_filter.mp hi).1
    have h1 := edge_closed xs B i (by omega)
    have h2 : (linspace (listMin xs) (listMax xs) B).getD (i + 1) 0 =
        listMin xs + (listMax xs - listMin xs) / ((B : ℚ) - 1) * ((i : ℚ) + 1) := by
      rw [edge_closed xs B (i + 1) (by omega)]
      push_cast
      ring
    simp only [Function.comp]
    rw [h1, h2]
  · rw [hfil]
    refine List.map_congr_left ?_
    intro i hi
    have hir := List.mem_range.mp (List.mem_filter.mp hi).1
    simp only [Function.comp]
    rw [binMembers_closedB xs ys B i hB hir]
  · rw [hfil]
    refine List.map_congr_left ?_
    intro i hi
    have hir := List.mem_range.mp (List.mem_filter.mp hi).1
    simp only [Function.comp]
    rw [binMembers_closedB xs ys B i hB hir]

/-- figure5's binner equals the reference with B equal-width half-open
bins, all centers emitted, member means, and zero-filled empty bins. -/
theorem fig5Binned_refines :
    ∀ (taus peaks : List ℚ) (B : ℕ),
      fig5Binned taus peaks B = binSpecMeanZero taus peaks B := by
  intro taus peaks B
  have hlen : (linspace (listMin taus) (listMax taus) (B + 1)).length = B + 1 := by
    simp [linspace]
  simp only [fig5Binned, binSpecMeanZero]
  rw [fig5_loop, zipWith_tail_eq, hlen]
  simp only [Prod.mk.injEq, List.nil_append, Nat.add_sub_cancel]
  constructor
  · refine List.map_congr_left ?_
    intro i hi
    have hir := List.mem_range.mp hi
    rw [edge_closed taus (B + 1) i (by omega), edge_closed taus (B + 1) (i + 1) (by omega)]
    push_cast
    ring
  · refine List.map_congr_left ?_
    intro i hi
    have hir := List.mem_range.mp hi
    rw [binMembers_closedB1 taus peaks B i hir]

/-- C1, amended.  figure7's binner computes B - 1 (not B) equal-width
half-open bins spanning [min, max) — values equal to the max fall in no
bin — takes the median of member metric_y per bin, records center and
member count, and omits empty bins; figure5's binner computes B
equal-width half-open bins but aggregates with the mean (not the median)
and emits every bin center, zero-filling empty bins instead of omitting
them. -/
theorem c1_binner_amended :
    (∀ (xs ys : List ℚ) (B : ℕ), 2 ≤ B →
      fig7Binned xs ys B =
        ((binSpecMedian xs ys B).map (fun b => b.1),
         (binSpecMedian xs ys B).map (fun b => b.2.1),
         (binSpecMedian xs ys B).map (fun b => b.2.2))) ∧
    (∀ (taus peaks : List ℚ) (B : ℕ),
      fig5Binned taus peaks B = binSpecMeanZero taus peaks B) :=
  ⟨fig7Binned_refines, fig5Binned_refines⟩

/-- C1, counterexample.  With pairs (0,0), (1,1), (2,2), (3,3) and B = 3,
the claim's binner (binSpecClaim: B equal-width bins, median, empty bins
omitted) yields three bins of width 1, but figure7's binner emits two
bins of width 3/2 (edges linspace(0,3,3)) with counts [2, 1] — the pair
with metric_x = 3 = max falls in no bin.  And with pairs x = [0,0,0,3],
y = [1,2,9,5] and B = 2, figure5's binner emits the empty second bin as
0 instead of omitting it, and aggregates the first bin with the mean 4
instead of the median 2. -/
theorem c1_counterexample :
    fig7Binned [0, 1, 2, 3] [0, 1, 2, 3] 3 = ([3 / 4, 9 / 4], [1 / 2, 2], [2, 1]) ∧
    binSpecClaim [0, 1, 2, 3] [0, 1, 2, 3] 3 =
      [(1 / 2, 0, 1), (3 / 2, 1, 1), (5 / 2, 2, 1)] ∧
    fig5Binned [0, 0, 0, 3] [1, 2, 9, 5] 2 = ([3 / 4, 9 / 4], [4, 0]) := by
  refine ⟨?_, ?_, ?_⟩
  · norm_num [fig7Binned, fig7BinStep, binMembers, inBin, List.filter, median,
      percentile, sortByKey, insertByKey, listMin, listMax, linspace,
      List.range_succ, min_def, max_def, List.foldl]
  · norm_num [binSpecClaim, List.filterMap, List.filter, median, percentile,
      sortByKey, insertByKey, listMin, listMax, List.range_succ, min_def, max_def]
  · norm_num [fig5Binned, fig5BinStep, binMembers, inBin, List.filter, listMean,
      listMin, listMax, linspace, List.range_succ, min_def, max_def, List.foldl,
      zipWith_tail_eq]

/-- Witness for C1 at the concrete input of the counterexample. -/
theorem c1_witness :
    fig7Binned [0, 1, 2, 3] [0, 1, 2, 3] 3 =
      ((binSpecMedian [0, 1, 2, 3] [0, 1, 2, 3] 3).map (fun b => b.1),
       (binSpecMedian [0, 1, 2, 3] [0, 1, 2, 3] 3).map (fun b => b.2.1),
       (binSpecMedian [0, 1, 2, 3] [0, 1, 2, 3] 3).map (fun b => b.2.2)) :=
  c1_binner_amended.1 [0, 1, 2, 3] [0, 1, 2, 3] 3 (by norm_num)

namespace TracePipe

/-- Bool-level meaning of the half-open bin membership test. -/
theorem inBin_true_iff (lo hi x : ℚ) : inBin lo hi x = true ↔ lo ≤ x ∧ x < hi := by
  simp [inBin]

/-- Prop-to-Bool bridge for the bins over the n-point grid. -/
theorem inBin_edge_iff (xs : List ℚ) (n i : ℕ) (x : ℚ) :
    inBin (edgeOf xs n i) (edgeOf xs n (i + 1)) x = true ↔ binPredN xs n i x := by
  rw [inBin_true_iff]
  exact Iff.rfl

/-- Sum of an indicator map counts the satisfying elements. -/
theorem sum_map_ite_count {α : Type} (Q : α → Prop) [DecidablePred Q] (l : List α) :
    (l.map (fun a => if Q a then 1 else 0)).sum = l.countP (fun a => decide (Q a)) := by
  induction l with
  | nil => rfl
  | cons a t ih =>
    by_cases h : Q a <;> simp [List.countP_cons, h, ih] <;> omega

/-- countP as a sum of indicators (Bool predicate form). -/
theorem countP_eq_sum_map_bool {α : Type} (p : α → Bool) (l : List α) :
    l.countP p = (l.map (fun a => if p a then 1 else 0)).sum := by
  induction l with
  | nil => rfl
  | cons a t ih =>
    by_cases h : p a <;> simp [List.countP_cons, h, ih] <;> omega

/-- Pointwise sums of natural maps add. -/
theorem sum_map_add {α : Type} (l : List α) (f g : α → ℕ) :
    (l.map (fun a => f a + g a)).sum = (l.map f).sum + (l.map g).sum := by
  induction l with
  | nil => rfl
  | cons a t ih => simp [ih]; omega

/-- Exchange of summation: total member count over a family of filters
equals the per-element count of how many filters admit it. -/
theorem sum_filter_lengths {α : Type} (l : List α) (idxs : List ℕ) (q : ℕ → α → Bool) :
    (idxs.map (fun i => (l.filter (q i)).length)).sum =
      (l.map (fun x => idxs.countP (fun i => q i x))).sum := by
  induction idxs with
  | nil => simp [List.map_const']
  | cons i t ih =>
    simp only [List.map_cons, List.sum_cons, ih]
    have hcons : (l.map (fun x => (i :: t).countP (fun j => q j x))) =
        l.map (fun x => t.countP (fun j => q j x) + if q i x then 1 else 0) := by
      refine List.map_congr_left (fun x _ => ?_)
      rw [List.countP_cons]
    rw [hcons, sum_map_add l (fun x => t.countP (fun j => q j x))
      (fun x => if q i x then 1 else 0)]
    have hlen : (l.filter (q i)).length = (l.map (fun x => if q i x then 1 else 0)).sum := by
      rw [← List.countP_eq_length_filter, countP_eq_sum_map_bool]
    omega

/-- Dropping zero entries does not change a sum of naturals. -/
theorem sum_filter_pos (idxs : List ℕ) (f : ℕ → ℕ) :
    ((idxs.filter (fun i => decide (0 < f i))).map f).sum = (idxs.map f).sum := by
  induction idxs with
  | nil => rfl
  | cons i t ih =>
    by_cases h : 0 < f i
    · simp [List.filter_cons, h, ih]
    · have hz : f i = 0 := by omega
      simp [List.filter_cons, h, ih, hz]

/-- A duplicate-free list whose members all equal i, containing i, is [i]. -/
theorem nodup_all_eq (l : List ℕ) (i : ℕ) (hnd : l.Nodup) (hm : i ∈ l)
    (hall : ∀ j ∈ l, j = i) : l = [i] := by
  cases l with
  | nil => cases hm
  | cons a t =>
    have ha : a = i := hall a (List.mem_cons_self a t)
    subst ha
    cases t with
    | nil => rfl
    | cons b u =>
      have hb : b = a := hall b (List.mem_cons_of_mem a (List.mem_cons_self b u))
      subst hb
      exact absurd (List.mem_cons_self b u) ((List.nodup_cons.mp hnd).1 ∘ fun h => h)

/-- A unique satisfier in a duplicate-free list gives count 1. -/
theorem countP_eq_one_of_unique (l : List ℕ) (p : ℕ → Bool) (i : ℕ)
    (hnd : l.Nodup) (hi : i ∈ l) (hp : p i = true)
    (hu : ∀ j ∈ l, p j = true → j = i) : l.countP p = 1 := by
  rw [List.countP_eq_length_filter]
  rw [nodup_all_eq (l.filter p) i (hnd.filter p)
    (List.mem_filter.mpr ⟨hi, hp⟩)
    (fun j hj => hu j (List.mem_filter.mp hj).1 (List.mem_filter.mp hj).2)]
  rfl

/-- Existence and uniqueness of the bin index of a value strictly below
the domain max over an n-point equal-width grid. -/
theorem bin_exists_unique (mn mx x : ℚ) (n : ℕ) (hn : 2 ≤ n)
    (hmn : mn ≤ x) (hmx : x < mx) :
    ∃! i : ℕ, i < n - 1 ∧
      mn + (mx - mn) / ((n : ℚ) - 1) * (i : ℚ) ≤ x ∧
      x < mn + (mx - mn) / ((n : ℚ) - 1) * ((i : ℚ) + 1) := by
  have hmxmn : 0 < mx - mn := by linarith
  have hn1 : (0 : ℚ) < (n : ℚ) - 1 := by
    have h2 : (2 : ℚ) ≤ (n : ℚ) := by exact_mod_cast hn
    linarith
  have hdpos : 0 < (mx - mn) / ((n : ℚ) - 1) := div_pos hmxmn hn1
  set d := (mx - mn) / ((n : ℚ) - 1) with hd
  set r := (x - mn) / d with hr
  have hr0 : 0 ≤ r := div_nonneg (by linarith) hdpos.le
  have hfl0 : 0 ≤ ⌊r⌋ := Int.floor_nonneg.mpr hr0
  have hcast : ((⌊r⌋.toNat : ℕ) : ℚ) = ((⌊r⌋ : ℤ) : ℚ) := by
    exact_mod_cast Int.toNat_of_nonneg hfl0
  have hle : ((⌊r⌋.toNat : ℕ) : ℚ) ≤ r := by
    rw [hcast]; exact Int.floor_le r
  have hlt : r < ((⌊r⌋.toNat : ℕ) : ℚ) + 1 := by
    rw [hcast]; exact Int.lt_floor_add_one r
  have hrn : r < (n : ℚ) - 1 := by
    rw [hr, div_lt_iff hdpos, hd]
    have : ((n : ℚ) - 1) * ((mx - mn) / ((n : ℚ) - 1)) = mx - mn := by
      field_simp
    rw [this]
    linarith
  refine ⟨⌊r⌋.toNat, ⟨?_, ?_, ?_⟩, ?_⟩
  · have hq : ((⌊r⌋.toNat : ℕ) : ℚ) < (n : ℚ) - 1 := lt_of_le_of_lt hle hrn
    have hq2 : ((⌊r⌋.toNat : ℕ) : ℚ) < (((n - 1 : ℕ) : ℕ) : ℚ) := by
      rwa [Nat.cast_sub (by omega : 1 ≤ n), Nat.cast_one]
    exact_mod_cast hq2
  · have := (le_div_iff hdpos).mp (hr ▸ hle)
    linarith [this]
  · have := (div_lt_iff hdpos).mp (hr ▸ hlt)
    linarith [this]
  · intro j ⟨hj, hj1, hj2⟩
    have hjle : (j : ℚ) ≤ r := by
      rw [hr, le_div_iff hdpos]
      linarith
    have hjlt : r < (j : ℚ) + 1 := by
      rw [hr, div_lt_iff hdpos]
      linarith
    have : ⌊r⌋ = (j : ℤ) := by
      rw [Int.floor_eq_iff]
      constructor
      · exact_mod_cast hjle
      · exact_mod_cast hjlt
    omega

/-- No bin of the n-point grid admits a value at or above the domain
max. -/
theorem bin_not_mem_max (mn mx x : ℚ) (n i : ℕ) (hle : mn ≤ mx) (hx : mx ≤ x)
    (hi : i < n - 1) :
    ¬(mn + (mx - mn) / ((n : ℚ) - 1) * (i : ℚ) ≤ x ∧
      x < mn + (mx - mn) / ((n : ℚ) - 1) * ((i : ℚ) + 1)) := by
  rintro ⟨h1, h2⟩
  have hn : 2 ≤ n := by omega
  have hn1 : (0 : ℚ) < (n : ℚ) - 1 := by
    have h2q : (2 : ℚ) ≤ (n : ℚ) := by exact_mod_cast hn
    linarith
  have hle2 : (i : ℚ) + 1 ≤ (n : ℚ) - 1 := by
    have hnat : i + 1 ≤ n - 1 := by omega
    have hq : ((i + 1 : ℕ) : ℚ) ≤ (((n - 1 : ℕ)) : ℚ) := by exact_mod_cast hnat
    rwa [Nat.cast_add, Nat.cast_one, Nat.cast_sub (by omega : 1 ≤ n), Nat.cast_one] at hq
  have hd0 : 0 ≤ (mx - mn) / ((n : ℚ) - 1) := div_nonneg (by linarith) hn1.le
  have hmono := mul_le_mul_of_nonneg_left hle2 hd0
  have heq : (mx - mn) / ((n : ℚ) - 1) * ((n : ℚ) - 1) = mx - mn :=
    div_mul_cancel₀ _ (ne_of_gt hn1)
  linarith

end TracePipe

namespace TracePipe

/-- Bins in closed-width form (bridging `binPredN` to the arithmetic
lemmas). -/
theorem binPredN_closed_iff (xs : List ℚ) (n i : ℕ) (hi1 : i + 1 < n) (x : ℚ) :
    binPredN xs n i x ↔
      (listMin xs + (listMax xs - listMin xs) / ((n : ℚ) - 1) * (i : ℚ) ≤ x ∧
       x < listMin xs + (listMax xs - listMin xs) / ((n : ℚ) - 1) * ((i : ℚ) + 1)) := by
  unfold binPredN
  rw [edgeOf_eq xs n i (by omega), edgeOf_eq xs n (i + 1) hi1]
  have e1 : listMin xs + (listMax xs - listMin xs) * (i : ℚ) / ((n : ℚ) - 1) =
      listMin xs + (listMax xs - listMin xs) / ((n : ℚ) - 1) * (i : ℚ) := by ring
  have e2 : listMin xs + (listMax xs - listMin xs) * ((i + 1 : ℕ) : ℚ) / ((n : ℚ) - 1) =
      listMin xs + (listMax xs - listMin xs) / ((n : ℚ) - 1) * ((i : ℚ) + 1) := by
    push_cast
    ring
  rw [e1, e2]

/-- How many of the B - 1 bins contain x: one when x is strictly below
the domain max, none otherwise. -/
theorem countP_bins_eq (xs : List ℚ) (B : ℕ) (hB : 2 ≤ B) (x : ℚ) (hx : x ∈ xs) :
    (List.range (B - 1)).countP
      (fun i => inBin (edgeOf xs B i) (edgeOf xs B (i + 1)) x) =
      if x < listMax xs then 1 else 0 := by
  have hxmin := listMin_le xs x hx
  have hxmax := le_listMax xs x hx
  by_cases hlt : x < listMax xs
  · rw [if_pos hlt]
    obtain ⟨i, ⟨hi, h1, h2⟩, huniq⟩ :=
      bin_exists_unique (listMin xs) (listMax xs) x B hB hxmin hlt
    refine countP_eq_one_of_unique _ _ i (List.nodup_range (B - 1))
      (List.mem_range.mpr hi) ?_ ?_
    · rw [inBin_edge_iff, binPredN_closed_iff xs B i (by omega) x]
      exact ⟨h1, h2⟩
    · intro j hj hpj
      rw [inBin_edge_iff, binPredN_closed_iff xs B j
        (by have := List.mem_range.mp hj; omega) x] at hpj
      exact huniq j ⟨List.mem_range.mp hj, hpj.1, hpj.2⟩
  · rw [if_neg hlt]
    rw [List.countP_eq_zero]
    intro i hi hpi
    rw [inBin_edge_iff, binPredN_closed_iff xs B i
      (by have := List.mem_range.mp hi; omega) x] at hpi
    exact bin_not_mem_max (listMin xs) (listMax xs) x B i (hxmin.trans hxmax)
      (not_lt.mp hlt) (List.mem_range.mp hi) hpi

/-- Splitting a bounded list's length by strictly-below versus equal to
the bound. -/
theorem countP_split_lt_eq (l : List ℚ) (m : ℚ) (hub : ∀ x ∈ l, x ≤ m) :
    l.countP (fun x => decide (x < m)) + l.countP (fun x => decide (x = m)) = l.length := by
  induction l with
  | nil => rfl
  | cons a t ih =>
    have ha := hub a (List.mem_cons_self a t)
    have ih2 := ih (fun x hx => hub x (List.mem_cons_of_mem a hx))
    by_cases he : a = m
    · subst he
      simp only [List.countP_cons, decide_eq_true_eq, lt_irrefl, List.length_cons]
      simp
      omega
    · have hlt : a < m := lt_of_le_of_ne ha he
      simp only [List.countP_cons, decide_eq_true_eq, List.length_cons]
      simp [he, hlt]
      omega

/-- Sum of the emitted member counts of figure7's binner. -/
theorem fig7_counts_sum (xs ys : List ℚ) (B : ℕ) (hB : 2 ≤ B)
    (hlen : xs.length = ys.length) :
    (fig7Binned xs ys B).2.2.sum =
      xs.length - xs.countP (fun x => decide (x = listMax xs)) := by
  have hl : (linspace (listMin xs) (listMax xs) B).length = B := by simp [linspace]
  simp only [fig7Binned]
  rw [hl, fig7_loop]
  dsimp only
  simp only [List.nil_append]
  rw [sum_filter_pos]
  simp only [binMembers]
  rw [sum_filter_lengths (xs.zip ys) (List.range (B - 1))
    (fun i p => inBin ((linspace (listMin xs) (listMax xs) B).getD i 0)
      ((linspace (listMin xs) (listMax xs) B).getD (i + 1) 0) p.1)]
  simp only [show ∀ j : ℕ, (linspace (listMin xs) (listMax xs) B).getD j 0 =
    edgeOf xs B j from fun _ => rfl]
  rw [List.map_congr_left
    (fun p hp => countP_bins_eq xs B hB p.1 (List.of_mem_zip hp).1)]
  rw [sum_map_ite_count (fun p : ℚ × ℚ => p.1 < listMax xs) (xs.zip ys)]
  have hz : ∀ m : ℚ, (xs.zip ys).countP (fun p => decide (p.1 < m)) =
      xs.countP (fun x => decide (x < m)) := by
    intro m
    conv_rhs => rw [← List.map_fst_zip xs ys (le_of_eq hlen)]
    rw [List.countP_map]
    rfl
  rw [hz (listMax xs)]
  have hsplit := countP_split_lt_eq xs (listMax xs) (le_listMax xs)
  omega

end TracePipe

/-- C6, amended.  For non-degenerate binning input, every pair with
metric_x in [min, max) falls into exactly one of figure7's B - 1 bins;
pairs with metric_x equal to the observed maximum fall into no bin of
either grid (they are dropped, not assigned to the last bin), and the sum
of member counts across emitted bins equals N minus the number of pairs
whose metric_x equals the maximum (hence ≤ N, and < N whenever the
maximum is attained). -/
theorem c6_partition_amended :
    ∀ (xs ys : List ℚ) (B : ℕ), 2 ≤ B → xs.length = ys.length →
      (∀ x ∈ xs, x < listMax xs → ∃! i : ℕ, i < B - 1 ∧ binPredN xs B i x) ∧
      (∀ x ∈ xs, ¬(x < listMax xs) → ∀ i, i < B - 1 → ¬binPredN xs B i x) ∧
      (∀ x ∈ xs, ¬(x < listMax xs) → ∀ i, i < B → ¬binPredN xs (B + 1) i x) ∧
      (fig7Binned xs ys B).2.2.sum =
        xs.length - xs.countP (fun x => decide (x = listMax xs)) := by
  intro xs ys B hB hlen
  refine ⟨?_, ?_, ?_, fig7_counts_sum xs ys B hB hlen⟩
  · intro x hx hlt
    obtain ⟨i, ⟨hi, h1, h2⟩, hu⟩ :=
      bin_exists_unique (listMin xs) (listMax xs) x B hB (listMin_le xs x hx) hlt
    refine ⟨i, ⟨hi, (binPredN_closed_iff xs B i (by omega) x).mpr ⟨h1, h2⟩⟩, ?_⟩
    rintro j ⟨hj, hpj⟩
    have hpj' := (binPredN_closed_iff xs B j (by omega) x).mp hpj
    exact hu j ⟨hj, hpj'.1, hpj'.2⟩
  · intro x hx hnlt i hi hp
    have hp' := (binPredN_closed_iff xs B i (by omega) x).mp hp
    exact bin_not_mem_max (listMin xs) (listMax xs) x B i
      ((listMin_le xs x hx).trans (le_listMax xs x hx)) (not_lt.mp hnlt) hi hp'
  · intro x hx hnlt i hi hp
    have hp' := (binPredN_closed_iff xs (B + 1) i (by omega) x).mp hp
    exact bin_not_mem_max (listMin xs) (listMax xs) x (B + 1) i
      ((listMin_le xs x hx).trans (le_listMax xs x hx)) (not_lt.mp hnlt)
      (by omega) hp'

/-- C6, counterexample.  With pairs (0,0), (1,1), (2,2), (3,3) and B = 3,
the pair with metric_x = 3 lies in the observed domain [0, 3] but falls
into no bin (the last half-open bin [3/2, 3) excludes the maximum), and
the emitted member counts sum to 3 < 4 = N: equality fails even though
the maximum is attained, contradicting the claimed
assigned-to-last-bin-by-convention behavior. -/
theorem c6_counterexample :
    (fig7Binned [0, 1, 2, 3] [0, 1, 2, 3] 3).2.2.sum = 3 ∧
    ([0, 1, 2, 3] : List ℚ).length = 4 ∧
    ¬binPredN [0, 1, 2, 3] 3 0 3 ∧ ¬binPredN [0, 1, 2, 3] 3 1 3 := by
  refine ⟨?_, rfl, ?_, ?_⟩
  · norm_num [fig7Binned, fig7BinStep, binMembers, inBin, List.filter, median,
      percentile, sortByKey, insertByKey, listMin, listMax, linspace,
      List.range_succ, min_def, max_def, List.foldl]
  · norm_num [binPredN, edgeOf, linspace, List.range_succ, listMin, listMax,
      min_def, max_def]
  · norm_num [binPredN, edgeOf, linspace, List.range_succ, listMin, listMax,
      min_def, max_def]

/-- Witness for C6 at the counterexample input: the count sum identity
holds there. -/
theorem c6_witness :
    (fig7Binned [0, 1, 2, 3] [0, 1, 2, 3] 3).2.2.sum =
      ([0, 1, 2, 3] : List ℚ).length -
        ([0, 1, 2, 3] : List ℚ).countP
          (fun x => decide (x = listMax [0, 1, 2, 3])) :=
  (c6_partition_amended [0, 1, 2, 3] [0, 1, 2, 3] 3 (by norm_num) rfl).2.2.2
